import Mathlib

/-!
Verification of the room-based voice-session coordinator.

The coordinator is implemented in src/src/hooks/useVoiceCall.ts: a mesh of
peer-to-peer audio sessions driven by inbound signaling messages
(join / offer / answer / ice-candidate / leave), local user actions
(joinCall / leaveCall / toggleMute) and a per-peer ICE candidate queue.
A second, parallel implementation of the symmetric mesh lives in
src/src/hooks/useWebRTC.ts; the offer fan-out loop of its startCall is
embedded here as well.

Embedding conventions:
- React state (useState setters) becomes a record VoiceCallState threaded
  through each handler; the JavaScript Map of peers becomes an association
  list with in-place update (setPeer) and deletion (erasePeer), preserving
  insertion order exactly as a JavaScript Map does.
- Browser RTCPeerConnection objects become the record RTCConn holding the
  fields the coordinator reads or writes: local and remote description, the
  trace of addIceCandidate calls, the connection state and the closed flag.
  Event-handler registration (ontrack, onicecandidate, ...), audio elements
  and console logging are side effects outside the state the claims speak
  about and are not modelled.
- Fallible runtime calls become oracle inputs: Env.offerResult gives the
  outcome of createOffer + setLocalDescription at a given retryCount,
  Env.remoteDescOk the outcome of setRemoteDescription, Env.answerResult
  the outcome of createAnswer + setLocalDescription; getUserMedia becomes
  an Option MediaStream argument of joinCall. addIceCandidate failures are
  caught by the source without any control-flow effect, so the call trace
  is recorded unconditionally.
- The asynchronous handlers are modelled as a sequential event loop, one
  inbound event processed to completion at a time, matching the per-peer
  serialization the specification requires.
-/

namespace VoiceCall

/-- Participant identity, an opaque string (used as the peer key). -/
abbrev PeerId := String

/-- Opaque session description payload (offer or answer SDP). -/
abbrev Sdp := String

/-- Opaque ICE candidate payload. -/
abbrev Candidate := String

/-- The message type tag of interface SignalingMessage in useVoiceCall.ts. -/
inductive MsgType where
  | offer
  | answer
  | iceCandidate
  | join
  | leave
deriving DecidableEq, Repr

/-- Embedding of interface SignalingMessage of useVoiceCall.ts.
The source field named from is a Lean keyword and is rendered msgFrom. -/
structure SignalingMessage where
  type : MsgType
  data : String
  msgFrom : PeerId
  msgTo : Option PeerId
  room_id : String
deriving DecidableEq, Repr

/-- One audio track of a MediaStream: the enabled flag toggled by
toggleMute and the stopped flag set by track.stop(). -/
structure MediaTrack where
  enabled : Bool
  stopped : Bool
deriving DecidableEq, Repr

/-- A capture stream: the list of its (audio) tracks. -/
structure MediaStream where
  tracks : List MediaTrack
deriving DecidableEq, Repr

/-- The portion of an RTCPeerConnection object that useVoiceCall.ts reads
or writes through the signaling handlers. appliedCandidates is the trace
of addIceCandidate calls made on this connection, in call order. -/
structure RTCConn where
  localTracks : List MediaTrack
  localDescription : Option Sdp
  remoteDescription : Option Sdp
  appliedCandidates : List Candidate
  connectionState : String
  closed : Bool
deriving DecidableEq, Repr

/-- Embedding of connection.addIceCandidate(candidate): the call is
recorded in the trace of applied candidates. -/
def RTCConn.addIceCandidate (conn : RTCConn) (candidate : Candidate) : RTCConn :=
  { conn with appliedCandidates := conn.appliedCandidates ++ [candidate] }

/-- Embedding of connection.close(). -/
def RTCConn.close (conn : RTCConn) : RTCConn :=
  { conn with closed := true, connectionState := "closed" }

/-- Embedding of interface PeerConnection of useVoiceCall.ts: one peer
session, keyed by the remote participant identity. -/
structure PeerConnection where
  id : PeerId
  connection : RTCConn
  stream : Option MediaStream
  iceCandidatesQueue : List Candidate
deriving DecidableEq, Repr

/-- The React state of the useVoiceCall hook that the claims are about.
peers is the Map of peer sessions, as an insertion-ordered association
list; error is the error state surfaced to the caller of the hook. -/
structure VoiceCallState where
  isInCall : Bool
  isMuted : Bool
  localStream : Option MediaStream
  peers : List (PeerId × PeerConnection)
  isConnecting : Bool
  error : String
deriving DecidableEq, Repr

/-- The hook parameters: useVoiceCall(roomId, userId, isAnchor). -/
structure Config where
  roomId : String
  userId : String
  isAnchor : Bool
deriving DecidableEq, Repr

/-- Oracle for the fallible Media Transport calls made while processing one
inbound signaling event. offerResult is indexed by the retryCount of
handlePeerJoin; none means the corresponding await threw. -/
structure Env where
  offerResult : Nat → Option Sdp
  remoteDescOk : Bool
  answerResult : Option Sdp

/-- Embedding of peers.get(peerId) on the JavaScript Map. -/
def lookupPeer : List (PeerId × PeerConnection) → PeerId → Option PeerConnection
  | [], _ => none
  | (k, v) :: rest, p => if k = p then some v else lookupPeer rest p

/-- Embedding of peers.set(peerId, peer) on the JavaScript Map: replaces
the entry in place when the key exists, appends otherwise. -/
def setPeer : List (PeerId × PeerConnection) → PeerId → PeerConnection →
    List (PeerId × PeerConnection)
  | [], p, v => [(p, v)]
  | (k, w) :: rest, p, v => if k = p then (p, v) :: rest else (k, w) :: setPeer rest p v

/-- Embedding of peers.delete(peerId) on the JavaScript Map. -/
def erasePeer : List (PeerId × PeerConnection) → PeerId → List (PeerId × PeerConnection)
  | [], _ => []
  | (k, w) :: rest, p => if k = p then rest else (k, w) :: erasePeer rest p

/-- Embedding of sendSignalingMessage: the hook fills in from and room_id
from its own configuration. -/
def mkMsg (cfg : Config) (type : MsgType) (data : String) (msgTo : Option PeerId) :
    SignalingMessage :=
  { type := type, data := data, msgFrom := cfg.userId, msgTo := msgTo, room_id := cfg.roomId }

/-- Embedding of createPeerConnection: a fresh connection with the local
stream tracks attached when a local stream exists. Handler registration and
the ICE server configuration are runtime effects outside the model. -/
def createPeerConnection (s : VoiceCallState) : RTCConn :=
  { localTracks := (s.localStream.map MediaStream.tracks).getD []
    localDescription := none
    remoteDescription := none
    appliedCandidates := []
    connectionState := "new"
    closed := false }

/-- The fresh session record built by handlePeerJoin and handleOffer:
const newPeer = (id, connection, iceCandidatesQueue empty). -/
def newPeerFor (s : VoiceCallState) (peerId : PeerId) : PeerConnection :=
  { id := peerId, connection := createPeerConnection s, stream := none, iceCandidatesQueue := [] }

/-- Embedding of handlePeerLeave: close the connection of the peer and
delete it from the Map; a missing peer leaves the Map unchanged. The closed
connection object is no longer referenced by the state. -/
def handlePeerLeave (peerId : PeerId) (s : VoiceCallState) : VoiceCallState :=
  { s with peers := erasePeer s.peers peerId }

/-- Embedding of the queue-drain loop
while (queue.length greater than 0) do (shift and addIceCandidate):
returns the connection after all addIceCandidate calls together with the
final (always empty) queue. -/
def drainQueue : RTCConn → List Candidate → RTCConn × List Candidate
  | conn, [] => (conn, [])
  | conn, c :: rest => drainQueue (conn.addIceCandidate c) rest

/-- Worker for handlePeerJoin. The source recursion increments retryCount
and guards the recursive call by retryCount less than 2; here the same
bound is carried structurally by fuel, with the invariant
fuel = 2 - retryCount, so that fuel = 0 exactly when the source guard
retryCount less than 2 fails. -/
def handlePeerJoinGo (cfg : Config) (env : Env) (peerId : PeerId) :
    Nat → Nat → VoiceCallState → VoiceCallState × List SignalingMessage
  | retryCount, fuel, s =>
    if (lookupPeer s.peers peerId).isSome then (s, [])
    else
      let newPeer := newPeerFor s peerId
      let s1 := { s with peers := setPeer s.peers peerId newPeer }
      if cfg.isAnchor && s.localStream.isSome then
        match env.offerResult retryCount with
        | some sdp =>
          let conn1 := { newPeer.connection with localDescription := some sdp }
          ({ s1 with peers := setPeer s1.peers peerId { newPeer with connection := conn1 } },
           [mkMsg cfg MsgType.offer sdp (some peerId)])
        | none =>
          match fuel with
          | fuel' + 1 =>
            handlePeerJoinGo cfg env peerId (retryCount + 1) fuel' (handlePeerLeave peerId s1)
          | 0 => (handlePeerLeave peerId s1, [])
      else (s1, [])

/-- Embedding of handlePeerJoin(peerId, retryCount): no-op when the peer
already has a session; otherwise create the session, and, only when the
local side is an anchor holding a local stream, create and send an offer,
tearing down and retrying on failure while retryCount is below 2. -/
def handlePeerJoin (cfg : Config) (env : Env) (peerId : PeerId) (retryCount : Nat)
    (s : VoiceCallState) : VoiceCallState × List SignalingMessage :=
  handlePeerJoinGo cfg env peerId retryCount (2 - retryCount) s

/-- Embedding of handleOffer(peerId, offer): a duplicate offer for an
existing session is dropped; otherwise the session is created, the offer
applied as remote description, the (empty) candidate queue drained, and an
answer created and sent. Any failure in the try block tears the peer down. -/
def handleOffer (cfg : Config) (env : Env) (peerId : PeerId) (offer : Sdp)
    (s : VoiceCallState) : VoiceCallState × List SignalingMessage :=
  if (lookupPeer s.peers peerId).isSome then (s, [])
  else
    let newPeer := newPeerFor s peerId
    let s1 := { s with peers := setPeer s.peers peerId newPeer }
    if !env.remoteDescOk then (handlePeerLeave peerId s1, [])
    else
      let conn1 := { newPeer.connection with remoteDescription := some offer }
      let (conn2, q2) := drainQueue conn1 newPeer.iceCandidatesQueue
      match env.answerResult with
      | none => (handlePeerLeave peerId s1, [])
      | some answer =>
        let conn3 := { conn2 with localDescription := some answer }
        let peer2 := { newPeer with connection := conn3, iceCandidatesQueue := q2 }
        ({ s1 with peers := setPeer s1.peers peerId peer2 },
         [mkMsg cfg MsgType.answer answer (some peerId)])

/-- Embedding of handleAnswer(peerId, answer): unknown peers are ignored;
otherwise the answer is applied as remote description and the candidate
queue drained in FIFO order. A setRemoteDescription failure tears the
peer down. -/
def handleAnswer (env : Env) (peerId : PeerId) (answer : Sdp) (s : VoiceCallState) :
    VoiceCallState × List SignalingMessage :=
  match lookupPeer s.peers peerId with
  | none => (s, [])
  | some peer =>
    if !env.remoteDescOk then (handlePeerLeave peerId s, [])
    else
      let conn1 := { peer.connection with remoteDescription := some answer }
      let (conn2, q2) := drainQueue conn1 peer.iceCandidatesQueue
      let peer2 := { peer with connection := conn2, iceCandidatesQueue := q2 }
      ({ s with peers := setPeer s.peers peerId peer2 }, [])

/-- Embedding of handleIceCandidate(peerId, candidate): unknown peers are
ignored; with a remote description present the candidate is applied
immediately, otherwise it is pushed onto the queue. -/
def handleIceCandidate (peerId : PeerId) (candidate : Candidate) (s : VoiceCallState) :
    VoiceCallState × List SignalingMessage :=
  match lookupPeer s.peers peerId with
  | none => (s, [])
  | some peer =>
    if peer.connection.remoteDescription.isSome then
      let peer1 := { peer with connection := peer.connection.addIceCandidate candidate }
      ({ s with peers := setPeer s.peers peerId peer1 }, [])
    else
      let peer1 := { peer with iceCandidatesQueue := peer.iceCandidatesQueue ++ [candidate] }
      ({ s with peers := setPeer s.peers peerId peer1 }, [])

/-- Embedding of handleSignalingMessage: messages from the local identity
are ignored; every other message is dispatched on its type, keyed by its
sender. The source never reads the field to of the message. -/
def handleSignalingMessage (cfg : Config) (env : Env) (message : SignalingMessage)
    (s : VoiceCallState) : VoiceCallState × List SignalingMessage :=
  if message.msgFrom = cfg.userId then (s, [])
  else
    match message.type with
    | MsgType.join => handlePeerJoin cfg env message.msgFrom 0 s
    | MsgType.offer => handleOffer cfg env message.msgFrom message.data s
    | MsgType.answer => handleAnswer env message.msgFrom message.data s
    | MsgType.iceCandidate => handleIceCandidate message.msgFrom message.data s
    | MsgType.leave => (handlePeerLeave message.msgFrom s, [])

/-- Embedding of joinCall: guarded on already being in or entering a call;
anchors acquire a capture stream (media is the getUserMedia outcome, none
when access is denied) before entering the call and announcing the join;
audience members enter without media. On media failure the error state is
set and the call is not entered. -/
def joinCall (cfg : Config) (media : Option MediaStream) (s : VoiceCallState) :
    VoiceCallState × List SignalingMessage :=
  if s.isInCall || s.isConnecting then (s, [])
  else
    let s0 := { s with isConnecting := true, error := "" }
    if cfg.isAnchor then
      match media with
      | some stream =>
        ({ s0 with localStream := some stream, isInCall := true, isConnecting := false },
         [mkMsg cfg MsgType.join "" none])
      | none =>
        ({ s0 with error := "Failed to access microphone. Please check your permissions."
                 , isConnecting := false }, [])
    else
      ({ s0 with isInCall := true, isConnecting := false },
       [mkMsg cfg MsgType.join "" none])

/-- Embedding of track.stop() applied to every track of a stream. -/
def MediaStream.stopTracks (ms : MediaStream) : MediaStream :=
  { tracks := ms.tracks.map fun t => { t with stopped := true } }

/-- The teardown effects leaveCall performs on objects it then drops from
the state: the leave announcement, the connections it closed and the local
stream whose tracks it stopped. -/
structure TeardownEffects where
  sentMessages : List SignalingMessage
  closedConnections : List RTCConn
  releasedStream : Option MediaStream
deriving DecidableEq, Repr

/-- Embedding of leaveCall: a no-op outside a call; otherwise announce the
leave, close every peer connection and clear the Map, stop every local
track and clear the stream reference, and reset the call flags, all before
returning. -/
def leaveCall (cfg : Config) (s : VoiceCallState) : VoiceCallState × TeardownEffects :=
  if !s.isInCall then (s, { sentMessages := [], closedConnections := [], releasedStream := none })
  else
    let sent := [mkMsg cfg MsgType.leave "" none]
    let closed := s.peers.map fun pr => pr.2.connection.close
    let released := s.localStream.map MediaStream.stopTracks
    ({ s with peers := [], localStream := none, isInCall := false, isMuted := false },
     { sentMessages := sent, closedConnections := closed, releasedStream := released })

/-- Embedding of toggleMute: guarded on holding a local stream and being an
anchor; flips the enabled flag of the first audio track and mirrors it in
isMuted. Nothing else is touched. -/
def toggleMute (cfg : Config) (s : VoiceCallState) : VoiceCallState :=
  match s.localStream, cfg.isAnchor with
  | some ms, true =>
    match ms.tracks with
    | [] => s
    | t :: rest =>
      let t1 := { t with enabled := !t.enabled }
      { s with localStream := some { ms with tracks := t1 :: rest }, isMuted := !t1.enabled }
  | _, _ => s

/-- Embedding of the public value connectedPeers = Array.from(peers.keys()). -/
def connectedPeers (s : VoiceCallState) : List PeerId :=
  s.peers.map Prod.fst

/-- One input to the coordinator event loop: an inbound signaling message
(with the oracle for the Media Transport calls it triggers) or a local
user action. -/
inductive Action where
  | signal (env : Env) (message : SignalingMessage)
  | joinAct (media : Option MediaStream)
  | leaveAct
  | muteAct

/-- Whether an action is an inbound offer message. -/
def Action.isInboundOffer : Action → Bool
  | Action.signal _ message => message.type = MsgType.offer
  | _ => false

/-- One step of the coordinator event loop, returning the next state and
the signaling messages published during the step. -/
def stepAction (cfg : Config) (s : VoiceCallState) : Action → VoiceCallState × List SignalingMessage
  | Action.signal env message => handleSignalingMessage cfg env message s
  | Action.joinAct media => joinCall cfg media s
  | Action.leaveAct =>
    let (s1, eff) := leaveCall cfg s
    (s1, eff.sentMessages)
  | Action.muteAct => (toggleMute cfg s, [])

/-- The coordinator event loop over a list of inputs, accumulating the
published messages. -/
def runActions (cfg : Config) (s : VoiceCallState) : List Action →
    VoiceCallState × List SignalingMessage
  | [] => (s, [])
  | a :: rest =>
    let (s1, out) := stepAction cfg s a
    let (s2, outs) := runActions cfg s1 rest
    (s2, out ++ outs)

/-- The initial React state of the hook. -/
def initState : VoiceCallState :=
  { isInCall := false, isMuted := false, localStream := none, peers := []
    isConnecting := false, error := "" }

/-- Embedding of the offer fan-out loop of startCall in useWebRTC.ts, the
separate symmetric implementation: an offer is created and sent to every
listed user other than the local one, with no role check. The messages are
rendered in the common SignalingMessage shape (the source inserts rows with
the same fields into a signaling table). -/
def startCallOffers (roomId userId : String) (offerSdp : Sdp) (anchorUsers : List String) :
    List SignalingMessage :=
  (anchorUsers.filter fun a => a ≠ userId).map fun anchorId =>
    { type := MsgType.offer, data := offerSdp, msgFrom := userId
      msgTo := some anchorId, room_id := roomId }

/-- Modelled from the spec: the claimed single policy flag on the mesh
coordinator. Under the symmetric flag every participant originates offers;
under the asymmetric flag only Initiator-role participants do. The source
contains no such flag; this definition exists to state claim C8 against
the source. -/
def specPolicyOriginatesOffer (symmetric : Bool) (isInitiator : Bool) : Bool :=
  symmetric || isInitiator

/-! Concrete states and environments used by the witness theorems. -/

/-- A concrete audience (Receiver role) configuration. -/
def cfgAud : Config := { roomId := "R1", userId := "me", isAnchor := false }

/-- A concrete anchor (Initiator role) configuration. -/
def cfgAnc : Config := { roomId := "R1", userId := "A", isAnchor := true }

/-- A concrete live audio track. -/
def trk : MediaTrack := { enabled := true, stopped := false }

/-- A concrete one-track capture stream. -/
def msA : MediaStream := { tracks := [trk] }

/-- An environment in which every Media Transport call succeeds. -/
def envOk : Env :=
  { offerResult := fun _ => some "sdp", remoteDescOk := true, answerResult := some "ans" }

/-- An environment in which createOffer fails at every attempt. -/
def envFail : Env :=
  { offerResult := fun _ => none, remoteDescOk := true, answerResult := some "ans" }

/-- A fresh connection with no remote description. -/
def connNoRemote : RTCConn :=
  { localTracks := [], localDescription := none, remoteDescription := none
    appliedCandidates := [], connectionState := "new", closed := false }

/-- A connection whose remote description has been applied. -/
def connRemote : RTCConn :=
  { connNoRemote with remoteDescription := some "off" }

/-- A session for peer B with two queued candidates and no remote
description yet. -/
def peerB : PeerConnection :=
  { id := "B", connection := connNoRemote, stream := none, iceCandidatesQueue := ["c1", "c2"] }

/-- A session for peer B whose remote description is applied and whose
queue is empty. -/
def peerBRemote : PeerConnection :=
  { id := "B", connection := connRemote, stream := none, iceCandidatesQueue := [] }

/-- An in-call anchor state with a local stream and no peers. -/
def sNoPeers : VoiceCallState :=
  { isInCall := true, isMuted := false, localStream := some msA, peers := []
    isConnecting := false, error := "" }

/-- An in-call state holding the session peerB. -/
def sWithB : VoiceCallState :=
  { sNoPeers with peers := [("B", peerB)] }

/-- An in-call state holding the session peerBRemote. -/
def sWithBRemote : VoiceCallState :=
  { sNoPeers with peers := [("B", peerBRemote)] }

/-!
Derived session shapes, used by the branch characterization lemmas below:
the session left behind by a successful anchor offer, by a successful
inbound offer, and by an answer flush.
-/

/-- The session stored by handlePeerJoin after a successful offer: the
fresh session with the offer applied as local description. -/
def offeredPeer (s : VoiceCallState) (p : PeerId) (sdp : Sdp) : PeerConnection :=
  { newPeerFor s p with
      connection := { createPeerConnection s with localDescription := some sdp } }

/-- The session stored by handleOffer after a successful answer: the fresh
session with the inbound offer as remote description and the answer as
local description. -/
def answeredPeer (s : VoiceCallState) (p : PeerId) (o ans : Sdp) : PeerConnection :=
  { newPeerFor s p with
      connection := { createPeerConnection s with
                        remoteDescription := some o, localDescription := some ans } }

/-- The session produced by the answer flush: remote description applied,
every queued candidate appended to the applied trace in order, and the
queue emptied. -/
def flushedPeer (peer : PeerConnection) (a : Sdp) : PeerConnection :=
  { peer with
      connection := { peer.connection with
                        remoteDescription := some a
                        appliedCandidates :=
                          peer.connection.appliedCandidates ++ peer.iceCandidatesQueue }
      iceCandidatesQueue := [] }

/-!
The global state invariant.
-/

/-- Queue discipline: a session whose remote description has been applied
has an empty candidate queue, so the queue is never consulted again after
the flush. -/
def QueueInv (s : VoiceCallState) : Prop :=
  ∀ pr ∈ s.peers, pr.2.connection.remoteDescription.isSome = true →
    pr.2.iceCandidatesQueue = []

/-- Global invariant of the coordinator state: the peer Map has no
duplicate keys (at most one session per peer identity) and the queue
discipline holds for every session. -/
def StateInv (s : VoiceCallState) : Prop :=
  (s.peers.map Prod.fst).Nodup ∧ QueueInv s

instance (s : VoiceCallState) : Decidable (QueueInv s) := by
  unfold QueueInv
  infer_instance

instance (s : VoiceCallState) : Decidable (StateInv s) := by
  unfold StateInv
  infer_instance

/-!
Lemmas about the Map embedding.
-/

theorem lookupPeer_isSome_iff {l : List (PeerId × PeerConnection)} {p : PeerId} :
    (lookupPeer l p).isSome = true ↔ p ∈ l.map Prod.fst := by
  induction l with
  | nil => simp [lookupPeer]
  | cons hd tl ih =>
    obtain ⟨k, v⟩ := hd
    by_cases h : k = p
    · subst h
      simp [lookupPeer]
    · simp [lookupPeer, h, ih, Ne.symm h]

theorem lookupPeer_eq_none_iff {l : List (PeerId × PeerConnection)} {p : PeerId} :
    lookupPeer l p = none ↔ p ∉ l.map Prod.fst := by
  rw [← lookupPeer_isSome_iff, Option.isSome_iff_exists]
  cases lookupPeer l p <;> simp

theorem lookupPeer_mem {l : List (PeerId × PeerConnection)} {p : PeerId} {v : PeerConnection}
    (h : lookupPeer l p = some v) : (p, v) ∈ l := by
  induction l with
  | nil => simp [lookupPeer] at h
  | cons hd tl ih =>
    obtain ⟨k, w⟩ := hd
    by_cases hk : k = p
    · subst hk
      simp only [lookupPeer, if_pos, Option.some.injEq] at h
      subst h
      exact List.mem_cons_self _ _
    · simp only [lookupPeer, if_neg hk] at h
      exact List.mem_cons_of_mem _ (ih h)

theorem map_fst_setPeer_of_mem {l : List (PeerId × PeerConnection)} {p : PeerId}
    {v : PeerConnection} (h : p ∈ l.map Prod.fst) :
    (setPeer l p v).map Prod.fst = l.map Prod.fst := by
  induction l with
  | nil => simp at h
  | cons hd tl ih =>
    obtain ⟨k, w⟩ := hd
    by_cases hk : k = p
    · subst hk
      simp [setPeer]
    · simp only [List.map_cons, List.mem_cons] at h
      have h' : p ∈ tl.map Prod.fst := by
        rcases h with h1 | h1
        · exact absurd h1.symm hk
        · exact h1
      simp [setPeer, hk, ih h']

theorem map_fst_setPeer_of_not_mem {l : List (PeerId × PeerConnection)} {p : PeerId}
    {v : PeerConnection} (h : p ∉ l.map Prod.fst) :
    (setPeer l p v).map Prod.fst = l.map Prod.fst ++ [p] := by
  induction l with
  | nil => simp [setPeer]
  | cons hd tl ih =>
    obtain ⟨k, w⟩ := hd
    simp only [List.map_cons, List.mem_cons, not_or] at h
    simp [setPeer, Ne.symm h.1, ih h.2]

theorem nodup_map_fst_setPeer {l : List (PeerId × PeerConnection)} {p : PeerId}
    {v : PeerConnection} (h : (l.map Prod.fst).Nodup) :
    ((setPeer l p v).map Prod.fst).Nodup := by
  by_cases hp : p ∈ l.map Prod.fst
  · rw [map_fst_setPeer_of_mem hp]; exact h
  · rw [map_fst_setPeer_of_not_mem hp, List.nodup_append]
    refine ⟨h, List.nodup_singleton p, ?_⟩
    intro a ha hmem
    simp only [List.mem_singleton] at hmem
    subst hmem
    exact hp ha

theorem mem_setPeer {l : List (PeerId × PeerConnection)} {p : PeerId} {v : PeerConnection}
    {x : PeerId × PeerConnection} (h : x ∈ setPeer l p v) : x = (p, v) ∨ x ∈ l := by
  induction l with
  | nil =>
    simp [setPeer] at h
    exact Or.inl h
  | cons hd tl ih =>
    obtain ⟨k, w⟩ := hd
    by_cases hk : k = p
    · subst hk
      simp [setPeer] at h
      rcases h with h | h
      · exact Or.inl h
      · exact Or.inr (List.mem_cons_of_mem _ h)
    · simp [setPeer, hk] at h
      rcases h with h | h
      · exact Or.inr (by simp [h])
      · rcases ih h with h1 | h1
        · exact Or.inl h1
        · exact Or.inr (List.mem_cons_of_mem _ h1)

theorem mem_erasePeer {l : List (PeerId × PeerConnection)} {p : PeerId}
    {x : PeerId × PeerConnection} (h : x ∈ erasePeer l p) : x ∈ l := by
  induction l with
  | nil => simp [erasePeer] at h
  | cons hd tl ih =>
    obtain ⟨k, w⟩ := hd
    by_cases hk : k = p
    · subst hk
      simp [erasePeer] at h
      exact List.mem_cons_of_mem _ h
    · simp [erasePeer, hk] at h
      rcases h with h | h
      · simp [h]
      · exact List.mem_cons_of_mem _ (ih h)

theorem map_fst_erasePeer_sublist (l : List (PeerId × PeerConnection)) (p : PeerId) :
    ((erasePeer l p).map Prod.fst).Sublist (l.map Prod.fst) := by
  induction l with
  | nil => simp [erasePeer]
  | cons hd tl ih =>
    obtain ⟨k, w⟩ := hd
    by_cases hk : k = p
    · subst hk
      simp [erasePeer]
    · simp [erasePeer, hk]
      exact ih

theorem nodup_map_fst_erasePeer {l : List (PeerId × PeerConnection)} {p : PeerId}
    (h : (l.map Prod.fst).Nodup) : ((erasePeer l p).map Prod.fst).Nodup :=
  (map_fst_erasePeer_sublist l p).nodup h

theorem erasePeer_setPeer_of_not_mem {l : List (PeerId × PeerConnection)} {p : PeerId}
    {v : PeerConnection} (h : p ∉ l.map Prod.fst) : erasePeer (setPeer l p v) p = l := by
  induction l with
  | nil => simp [setPeer, erasePeer]
  | cons hd tl ih =>
    obtain ⟨k, w⟩ := hd
    simp only [List.map_cons, List.mem_cons, not_or] at h
    simp [setPeer, erasePeer, Ne.symm h.1, h.1, ih h.2]

theorem lookupPeer_setPeer_self {l : List (PeerId × PeerConnection)} {p : PeerId}
    {v : PeerConnection} : lookupPeer (setPeer l p v) p = some v := by
  induction l with
  | nil => simp [setPeer, lookupPeer]
  | cons hd tl ih =>
    obtain ⟨k, w⟩ := hd
    by_cases hk : k = p
    · subst hk
      simp [setPeer, lookupPeer]
    · simp [setPeer, lookupPeer, hk, ih]

theorem lookupPeer_erasePeer_self {l : List (PeerId × PeerConnection)} {p : PeerId}
    (h : (l.map Prod.fst).Nodup) : lookupPeer (erasePeer l p) p = none := by
  induction l with
  | nil => simp [erasePeer, lookupPeer]
  | cons hd tl ih =>
    obtain ⟨k, w⟩ := hd
    simp only [List.map_cons, List.nodup_cons] at h
    by_cases hk : k = p
    · subst hk
      simp only [erasePeer, if_pos rfl]
      rw [lookupPeer_eq_none_iff]
      exact h.1
    · simp [erasePeer, hk, lookupPeer, ih h.2]

theorem drainQueue_spec (conn : RTCConn) (q : List Candidate) :
    drainQueue conn q =
      ({ conn with appliedCandidates := conn.appliedCandidates ++ q }, []) := by
  induction q generalizing conn with
  | nil => simp [drainQueue]
  | cons c rest ih =>
    simp [drainQueue, RTCConn.addIceCandidate, ih]

theorem setPeer_setPeer {l : List (PeerId × PeerConnection)} {p : PeerId}
    {v w : PeerConnection} : setPeer (setPeer l p v) p w = setPeer l p w := by
  induction l with
  | nil => simp [setPeer]
  | cons hd tl ih =>
    obtain ⟨k, u⟩ := hd
    by_cases hk : k = p
    · subst hk
      simp [setPeer]
    · simp [setPeer, hk, ih]

/-!
Branch characterization lemmas: one equation per reachable branch of each
handler, in terms of the derived session shapes. All later proofs go
through these.
-/

theorem handlePeerLeave_setPeer_fresh {s : VoiceCallState} {p : PeerId} {v : PeerConnection}
    (hl : lookupPeer s.peers p = none) :
    handlePeerLeave p { s with peers := setPeer s.peers p v } = s := by
  unfold handlePeerLeave
  rw [erasePeer_setPeer_of_not_mem (lookupPeer_eq_none_iff.mp hl)]

theorem handleIceCandidate_unknown {p : PeerId} {c : Candidate} {s : VoiceCallState}
    (hl : lookupPeer s.peers p = none) : handleIceCandidate p c s = (s, []) := by
  simp [handleIceCandidate, hl]

theorem handleIceCandidate_apply {p : PeerId} {c : Candidate} {s : VoiceCallState}
    {peer : PeerConnection} (hl : lookupPeer s.peers p = some peer)
    (hr : peer.connection.remoteDescription.isSome = true) :
    handleIceCandidate p c s =
      ({ s with peers := setPeer s.peers p ({ peer with connection := peer.connection.addIceCandidate c }) }, []) := by
  simp [handleIceCandidate, hl, hr]

theorem handleIceCandidate_queue {p : PeerId} {c : Candidate} {s : VoiceCallState}
    {peer : PeerConnection} (hl : lookupPeer s.peers p = some peer)
    (hr : peer.connection.remoteDescription.isSome = false) :
    handleIceCandidate p c s =
      ({ s with peers := setPeer s.peers p ({ peer with iceCandidatesQueue := peer.iceCandidatesQueue ++ [c] }) }, []) := by
  simp [handleIceCandidate, hl, hr]

theorem handleAnswer_unknown {env : Env} {p : PeerId} {a : Sdp} {s : VoiceCallState}
    (hl : lookupPeer s.peers p = none) : handleAnswer env p a s = (s, []) := by
  simp [handleAnswer, hl]

theorem handleAnswer_bad_remote {env : Env} {p : PeerId} {a : Sdp} {s : VoiceCallState}
    {peer : PeerConnection} (hl : lookupPeer s.peers p = some peer)
    (hok : env.remoteDescOk = false) :
    handleAnswer env p a s = (handlePeerLeave p s, []) := by
  simp [handleAnswer, hl, hok]

theorem handleAnswer_flush {env : Env} {p : PeerId} {a : Sdp} {s : VoiceCallState}
    {peer : PeerConnection} (hl : lookupPeer s.peers p = some peer)
    (hok : env.remoteDescOk = true) :
    handleAnswer env p a s =
      ({ s with peers := setPeer s.peers p (flushedPeer peer a) }, []) := by
  simp [handleAnswer, hl, hok, drainQueue_spec, flushedPeer]

theorem handleOffer_existing {cfg : Config} {env : Env} {p : PeerId} {o : Sdp}
    {s : VoiceCallState} (hl : (lookupPeer s.peers p).isSome = true) :
    handleOffer cfg env p o s = (s, []) := by
  simp [handleOffer, hl]

theorem handleOffer_bad_remote {cfg : Config} {env : Env} {p : PeerId} {o : Sdp}
    {s : VoiceCallState} (hl : lookupPeer s.peers p = none)
    (hok : env.remoteDescOk = false) : handleOffer cfg env p o s = (s, []) := by
  simp only [handleOffer, hl, Option.isSome_none, Bool.false_eq_true, if_false, hok,
    Bool.not_false, if_true]
  rw [handlePeerLeave_setPeer_fresh hl]

theorem handleOffer_fail_answer {cfg : Config} {env : Env} {p : PeerId} {o : Sdp}
    {s : VoiceCallState} (hl : lookupPeer s.peers p = none)
    (hok : env.remoteDescOk = true) (hans : env.answerResult = none) :
    handleOffer cfg env p o s = (s, []) := by
  simp only [handleOffer, hl, Option.isSome_none, Bool.false_eq_true, if_false, hok,
    Bool.not_true, if_false, drainQueue_spec, hans]
  rw [handlePeerLeave_setPeer_fresh hl]

theorem handleOffer_success {cfg : Config} {env : Env} {p : PeerId} {o ans : Sdp}
    {s : VoiceCallState} (hl : lookupPeer s.peers p = none)
    (hok : env.remoteDescOk = true) (hans : env.answerResult = some ans) :
    handleOffer cfg env p o s =
      ({ s with peers := setPeer s.peers p (answeredPeer s p o ans) },
       [mkMsg cfg MsgType.answer ans (some p)]) := by
  simp only [handleOffer, hl, Option.isSome_none, Bool.false_eq_true, if_false, hok,
    Bool.not_true, if_false, drainQueue_spec, hans, setPeer_setPeer]
  simp [answeredPeer, newPeerFor]

theorem handlePeerJoinGo_existing {cfg : Config} {env : Env} {p : PeerId} {rc fuel : Nat}
    {s : VoiceCallState} (hl : (lookupPeer s.peers p).isSome = true) :
    handlePeerJoinGo cfg env p rc fuel s = (s, []) := by
  cases fuel <;> simp [handlePeerJoinGo, hl]

theorem handlePeerJoinGo_no_offer {cfg : Config} {env : Env} {p : PeerId} {rc fuel : Nat}
    {s : VoiceCallState} (hl : lookupPeer s.peers p = none)
    (ha : (cfg.isAnchor && s.localStream.isSome) = false) :
    handlePeerJoinGo cfg env p rc fuel s =
      ({ s with peers := setPeer s.peers p (newPeerFor s p) }, []) := by
  cases fuel <;> simp [handlePeerJoinGo, hl, ha]

theorem handlePeerJoinGo_success {cfg : Config} {env : Env} {p : PeerId} {rc fuel : Nat}
    {sdp : Sdp} {s : VoiceCallState} (hl : lookupPeer s.peers p = none)
    (ha : (cfg.isAnchor && s.localStream.isSome) = true)
    (ho : env.offerResult rc = some sdp) :
    handlePeerJoinGo cfg env p rc fuel s =
      ({ s with peers := setPeer s.peers p (offeredPeer s p sdp) },
       [mkMsg cfg MsgType.offer sdp (some p)]) := by
  cases fuel <;>
    · simp only [handlePeerJoinGo, hl, Option.isSome_none, Bool.false_eq_true, if_false, ha,
        if_true, ho, setPeer_setPeer]
      simp [offeredPeer, newPeerFor]

theorem handlePeerJoinGo_fail_zero {cfg : Config} {env : Env} {p : PeerId} {rc : Nat}
    {s : VoiceCallState} (hl : lookupPeer s.peers p = none)
    (ha : (cfg.isAnchor && s.localStream.isSome) = true)
    (ho : env.offerResult rc = none) :
    handlePeerJoinGo cfg env p rc 0 s = (s, []) := by
  simp only [handlePeerJoinGo, hl, Option.isSome_none, Bool.false_eq_true, if_false, ha,
    if_true, ho]
  rw [handlePeerLeave_setPeer_fresh hl]

theorem handlePeerJoinGo_fail_succ {cfg : Config} {env : Env} {p : PeerId} {rc fuel : Nat}
    {s : VoiceCallState} (hl : lookupPeer s.peers p = none)
    (ha : (cfg.isAnchor && s.localStream.isSome) = true)
    (ho : env.offerResult rc = none) :
    handlePeerJoinGo cfg env p rc (fuel + 1) s =
      handlePeerJoinGo cfg env p (rc + 1) fuel s := by
  conv_lhs => rw [handlePeerJoinGo]
  simp only [hl, Option.isSome_none, Bool.false_eq_true, if_false, ha, if_true, ho]
  rw [handlePeerLeave_setPeer_fresh hl]

/-!
Preservation of the global invariant by every handler.
-/

theorem stateInv_handlePeerLeave {s : VoiceCallState} {p : PeerId} (h : StateInv s) :
    StateInv (handlePeerLeave p s) := by
  obtain ⟨h1, h2⟩ := h
  exact ⟨nodup_map_fst_erasePeer h1, fun pr hpr => h2 pr (mem_erasePeer hpr)⟩

theorem stateInv_setPeer {s : VoiceCallState} {p : PeerId} {peer1 : PeerConnection}
    (h : StateInv s)
    (hq : peer1.connection.remoteDescription.isSome = true → peer1.iceCandidatesQueue = []) :
    StateInv { s with peers := setPeer s.peers p peer1 } := by
  obtain ⟨h1, h2⟩ := h
  refine ⟨nodup_map_fst_setPeer h1, ?_⟩
  intro pr hpr hsome
  rcases mem_setPeer hpr with rfl | hold
  · exact hq hsome
  · exact h2 _ hold hsome

theorem stateInv_handleIceCandidate {p : PeerId} {c : Candidate} {s : VoiceCallState}
    (h : StateInv s) : StateInv (handleIceCandidate p c s).1 := by
  cases hl : lookupPeer s.peers p with
  | none =>
    rw [handleIceCandidate_unknown hl]
    exact h
  | some peer =>
    have hmem : (p, peer) ∈ s.peers := lookupPeer_mem hl
    cases hr : peer.connection.remoteDescription.isSome with
    | true =>
      rw [handleIceCandidate_apply hl hr]
      exact stateInv_setPeer h fun hsome => h.2 (p, peer) hmem hr
    | false =>
      rw [handleIceCandidate_queue hl hr]
      refine stateInv_setPeer h fun hsome => ?_
      have hcontra : peer.connection.remoteDescription.isSome = true := hsome
      rw [hr] at hcontra
      cases hcontra

theorem stateInv_handleAnswer {env : Env} {p : PeerId} {a : Sdp} {s : VoiceCallState}
    (h : StateInv s) : StateInv (handleAnswer env p a s).1 := by
  cases hl : lookupPeer s.peers p with
  | none =>
    rw [handleAnswer_unknown hl]
    exact h
  | some peer =>
    cases hok : env.remoteDescOk with
    | false =>
      rw [handleAnswer_bad_remote hl hok]
      exact stateInv_handlePeerLeave h
    | true =>
      rw [handleAnswer_flush hl hok]
      exact stateInv_setPeer h fun _ => rfl

theorem stateInv_handleOffer {cfg : Config} {env : Env} {p : PeerId} {o : Sdp}
    {s : VoiceCallState} (h : StateInv s) : StateInv (handleOffer cfg env p o s).1 := by
  cases hl : lookupPeer s.peers p with
  | some peer =>
    rw [handleOffer_existing (by simp [hl])]
    exact h
  | none =>
    cases hok : env.remoteDescOk with
    | false =>
      rw [handleOffer_bad_remote hl hok]
      exact h
    | true =>
      cases hans : env.answerResult with
      | none =>
        rw [handleOffer_fail_answer hl hok hans]
        exact h
      | some ans =>
        rw [handleOffer_success hl hok hans]
        exact stateInv_setPeer h fun _ => rfl

theorem stateInv_handlePeerJoinGo {cfg : Config} {env : Env} {p : PeerId} :
    ∀ (fuel rc : Nat) (s : VoiceCallState), StateInv s →
      StateInv (handlePeerJoinGo cfg env p rc fuel s).1 := by
  intro fuel
  induction fuel with
  | zero =>
    intro rc s h
    cases hl : lookupPeer s.peers p with
    | some peer =>
      rw [handlePeerJoinGo_existing (by simp [hl])]
      exact h
    | none =>
      cases ha : (cfg.isAnchor && s.localStream.isSome) with
      | false =>
        rw [handlePeerJoinGo_no_offer hl ha]
        exact stateInv_setPeer h fun hsome => by
          simp [newPeerFor, createPeerConnection] at hsome
      | true =>
        cases ho : env.offerResult rc with
        | some sdp =>
          rw [handlePeerJoinGo_success hl ha ho]
          exact stateInv_setPeer h fun hsome => by
            simp [offeredPeer, newPeerFor, createPeerConnection] at hsome
        | none =>
          rw [handlePeerJoinGo_fail_zero hl ha ho]
          exact h
  | succ fuel ih =>
    intro rc s h
    cases hl : lookupPeer s.peers p with
    | some peer =>
      rw [handlePeerJoinGo_existing (by simp [hl])]
      exact h
    | none =>
      cases ha : (cfg.isAnchor && s.localStream.isSome) with
      | false =>
        rw [handlePeerJoinGo_no_offer hl ha]
        exact stateInv_setPeer h fun hsome => by
          simp [newPeerFor, createPeerConnection] at hsome
      | true =>
        cases ho : env.offerResult rc with
        | some sdp =>
          rw [handlePeerJoinGo_success hl ha ho]
          exact stateInv_setPeer h fun hsome => by
            simp [offeredPeer, newPeerFor, createPeerConnection] at hsome
        | none =>
          rw [handlePeerJoinGo_fail_succ hl ha ho]
          exact ih _ _ h

theorem stateInv_handlePeerJoin {cfg : Config} {env : Env} {p : PeerId} {rc : Nat}
    {s : VoiceCallState} (h : StateInv s) : StateInv (handlePeerJoin cfg env p rc s).1 :=
  stateInv_handlePeerJoinGo _ _ _ h

theorem stateInv_handleSignalingMessage {cfg : Config} {env : Env} {m : SignalingMessage}
    {s : VoiceCallState} (h : StateInv s) : StateInv (handleSignalingMessage cfg env m s).1 := by
  unfold handleSignalingMessage
  by_cases hf : m.msgFrom = cfg.userId
  · simp only [hf, if_pos]
    exact h
  · simp only [hf, if_neg, if_false]
    cases m.type with
    | join => exact stateInv_handlePeerJoin h
    | offer => exact stateInv_handleOffer h
    | answer => exact stateInv_handleAnswer h
    | iceCandidate => exact stateInv_handleIceCandidate h
    | leave => exact stateInv_handlePeerLeave h

theorem stateInv_joinCall {cfg : Config} {media : Option MediaStream} {s : VoiceCallState}
    (h : StateInv s) : StateInv (joinCall cfg media s).1 := by
  obtain ⟨h1, h2⟩ := h
  unfold joinCall
  split
  · exact ⟨h1, h2⟩
  · split
    · cases media with
      | some stream => exact ⟨h1, h2⟩
      | none => exact ⟨h1, h2⟩
    · exact ⟨h1, h2⟩

theorem stateInv_leaveCall {cfg : Config} {s : VoiceCallState} (h : StateInv s) :
    StateInv (leaveCall cfg s).1 := by
  unfold leaveCall
  split
  · exact h
  · exact ⟨List.nodup_nil, by intro pr hpr; cases hpr⟩

theorem stateInv_toggleMute {cfg : Config} {s : VoiceCallState} (h : StateInv s) :
    StateInv (toggleMute cfg s) := by
  unfold toggleMute
  split
  · split
    · exact h
    · exact ⟨h.1, h.2⟩
  · exact h

theorem stateInv_stepAction {cfg : Config} {s : VoiceCallState} {a : Action}
    (h : StateInv s) : StateInv (stepAction cfg s a).1 := by
  cases a with
  | signal env message => exact stateInv_handleSignalingMessage h
  | joinAct media => exact stateInv_joinCall h
  | leaveAct => exact stateInv_leaveCall h
  | muteAct => exact stateInv_toggleMute h

theorem stateInv_runActions {cfg : Config} :
    ∀ (acts : List Action) (s : VoiceCallState), StateInv s →
      StateInv (runActions cfg s acts).1 := by
  intro acts
  induction acts with
  | nil => intro s h; exact h
  | cons a rest ih =>
    intro s h
    simp only [runActions]
    exact ih _ (stateInv_stepAction h)

theorem stateInv_initState : StateInv initState := by
  constructor
  · simp [initState]
  · intro pr hpr
    simp [initState] at hpr

/-!
Output lemmas: which message types each handler can publish.
-/

theorem handlePeerJoinGo_out_offer {cfg : Config} {env : Env} {p : PeerId} :
    ∀ (fuel rc : Nat) (s : VoiceCallState) (m : SignalingMessage),
      m ∈ (handlePeerJoinGo cfg env p rc fuel s).2 → m.type = MsgType.offer := by
  intro fuel
  induction fuel with
  | zero =>
    intro rc s m hm
    cases hl : lookupPeer s.peers p with
    | some peer =>
      rw [handlePeerJoinGo_existing (by simp [hl])] at hm
      cases hm
    | none =>
      cases ha : (cfg.isAnchor && s.localStream.isSome) with
      | false =>
        rw [handlePeerJoinGo_no_offer hl ha] at hm
        cases hm
      | true =>
        cases ho : env.offerResult rc with
        | some sdp =>
          rw [handlePeerJoinGo_success hl ha ho] at hm
          simp at hm
          simp [hm, mkMsg]
        | none =>
          rw [handlePeerJoinGo_fail_zero hl ha ho] at hm
          cases hm
  | succ fuel ih =>
    intro rc s m hm
    cases hl : lookupPeer s.peers p with
    | some peer =>
      rw [handlePeerJoinGo_existing (by simp [hl])] at hm
      cases hm
    | none =>
      cases ha : (cfg.isAnchor && s.localStream.isSome) with
      | false =>
        rw [handlePeerJoinGo_no_offer hl ha] at hm
        cases hm
      | true =>
        cases ho : env.offerResult rc with
        | some sdp =>
          rw [handlePeerJoinGo_success hl ha ho] at hm
          simp at hm
          simp [hm, mkMsg]
        | none =>
          rw [handlePeerJoinGo_fail_succ hl ha ho] at hm
          exact ih _ _ _ hm

theorem handlePeerJoinGo_receiver_out {cfg : Config} {env : Env} {p : PeerId}
    (hA : cfg.isAnchor = false) :
    ∀ (fuel rc : Nat) (s : VoiceCallState), (handlePeerJoinGo cfg env p rc fuel s).2 = [] := by
  intro fuel rc s
  cases hl : lookupPeer s.peers p with
  | some peer => rw [handlePeerJoinGo_existing (by simp [hl])]
  | none => rw [handlePeerJoinGo_no_offer hl (by simp [hA])]

theorem handleOffer_out_answer {cfg : Config} {env : Env} {p : PeerId} {o : Sdp}
    {s : VoiceCallState} {m : SignalingMessage} (hm : m ∈ (handleOffer cfg env p o s).2) :
    m.type = MsgType.answer := by
  cases hl : lookupPeer s.peers p with
  | some peer =>
    rw [handleOffer_existing (by simp [hl])] at hm
    cases hm
  | none =>
    cases hok : env.remoteDescOk with
    | false =>
      rw [handleOffer_bad_remote hl hok] at hm
      cases hm
    | true =>
      cases hans : env.answerResult with
      | none =>
        rw [handleOffer_fail_answer hl hok hans] at hm
        cases hm
      | some ans =>
        rw [handleOffer_success hl hok hans] at hm
        simp at hm
        simp [hm, mkMsg]

theorem handleAnswer_out {env : Env} {p : PeerId} {a : Sdp} {s : VoiceCallState} :
    (handleAnswer env p a s).2 = [] := by
  cases hl : lookupPeer s.peers p with
  | none => rw [handleAnswer_unknown hl]
  | some peer =>
    cases hok : env.remoteDescOk with
    | false => rw [handleAnswer_bad_remote hl hok]
    | true => rw [handleAnswer_flush hl hok]

theorem handleIceCandidate_out {p : PeerId} {c : Candidate} {s : VoiceCallState} :
    (handleIceCandidate p c s).2 = [] := by
  cases hl : lookupPeer s.peers p with
  | none => rw [handleIceCandidate_unknown hl]
  | some peer =>
    cases hr : peer.connection.remoteDescription.isSome with
    | true => rw [handleIceCandidate_apply hl hr]
    | false => rw [handleIceCandidate_queue hl hr]

theorem joinCall_out_join {cfg : Config} {media : Option MediaStream} {s : VoiceCallState}
    {m : SignalingMessage} (hm : m ∈ (joinCall cfg media s).2) : m.type = MsgType.join := by
  unfold joinCall at hm
  split at hm
  · cases hm
  · split at hm
    · cases media with
      | some stream =>
        simp at hm
        simp [hm, mkMsg]
      | none => cases hm
    · simp at hm
      simp [hm, mkMsg]

theorem leaveCall_out_leave {cfg : Config} {s : VoiceCallState} {m : SignalingMessage}
    (hm : m ∈ (leaveCall cfg s).2.sentMessages) : m.type = MsgType.leave := by
  unfold leaveCall at hm
  split at hm
  · cases hm
  · simp at hm
    simp [hm, mkMsg]

theorem receiver_no_offer_step {cfg : Config} {s : VoiceCallState} {a : Action}
    (hA : cfg.isAnchor = false) :
    ∀ m ∈ (stepAction cfg s a).2, m.type ≠ MsgType.offer := by
  intro m hm
  cases a with
  | signal env message =>
    simp only [stepAction] at hm
    unfold handleSignalingMessage at hm
    split at hm
    · cases hm
    · cases htype : message.type with
      | join =>
        rw [htype] at hm
        unfold handlePeerJoin at hm
        rw [handlePeerJoinGo_receiver_out hA] at hm
        cases hm
      | offer =>
        rw [htype] at hm
        rw [handleOffer_out_answer hm]
        simp
      | answer =>
        rw [htype] at hm
        rw [handleAnswer_out] at hm
        cases hm
      | iceCandidate =>
        rw [htype] at hm
        rw [handleIceCandidate_out] at hm
        cases hm
      | leave =>
        rw [htype] at hm
        cases hm
  | joinAct media =>
    simp only [stepAction] at hm
    rw [joinCall_out_join hm]
    simp
  | leaveAct =>
    simp only [stepAction] at hm
    rw [leaveCall_out_leave hm]
    simp
  | muteAct => cases hm

theorem receiver_no_offer_run {cfg : Config} (hA : cfg.isAnchor = false) :
    ∀ (acts : List Action) (s : VoiceCallState),
      ∀ m ∈ (runActions cfg s acts).2, m.type ≠ MsgType.offer := by
  intro acts
  induction acts with
  | nil =>
    intro s m hm
    cases hm
  | cons a rest ih =>
    intro s m hm
    simp only [runActions, List.mem_append] at hm
    rcases hm with hm | hm
    · exact receiver_no_offer_step hA m hm
    · exact ih _ m hm

theorem answer_out_only_on_offer {cfg : Config} {s : VoiceCallState} {a : Action}
    {m : SignalingMessage} (hm : m ∈ (stepAction cfg s a).2)
    (ht : m.type = MsgType.answer) : a.isInboundOffer = true := by
  cases a with
  | signal env message =>
    simp only [stepAction] at hm
    unfold handleSignalingMessage at hm
    split at hm
    · cases hm
    · cases htype : message.type with
      | join =>
        rw [htype] at hm
        have := handlePeerJoinGo_out_offer _ _ _ _ hm
        rw [ht] at this
        cases this
      | offer => simp [Action.isInboundOffer, htype]
      | answer =>
        rw [htype] at hm
        rw [handleAnswer_out] at hm
        cases hm
      | iceCandidate =>
        rw [htype] at hm
        rw [handleIceCandidate_out] at hm
        cases hm
      | leave =>
        rw [htype] at hm
        cases hm
  | joinAct media =>
    simp only [stepAction] at hm
    have := joinCall_out_join hm
    rw [ht] at this
    cases this
  | leaveAct =>
    simp only [stepAction] at hm
    have := leaveCall_out_leave hm
    rw [ht] at this
    cases this
  | muteAct => cases hm

/-!
The claims.
-/

/-- C1: for every sequence of coordinator inputs processed from the start
state, the peer Map never holds two sessions for the same peer identity,
and an inbound Join or Offer for a peer that already has a session leaves
the state unchanged and publishes nothing: the duplicate is dropped, no
new session is created. -/
theorem C1_at_most_one_session (cfg : Config) (acts : List Action) (env : Env)
    (p : PeerId) (sdp : Sdp) (s : VoiceCallState)
    (h : (lookupPeer s.peers p).isSome = true) :
    (connectedPeers (runActions cfg initState acts).1).Nodup
    ∧ handleSignalingMessage cfg env
        { type := MsgType.join, data := "", msgFrom := p, msgTo := none, room_id := cfg.roomId }
        s = (s, [])
    ∧ handleSignalingMessage cfg env
        { type := MsgType.offer, data := sdp, msgFrom := p, msgTo := none, room_id := cfg.roomId }
        s = (s, []) := by
  refine ⟨(stateInv_runActions acts initState stateInv_initState).1, ?_, ?_⟩
  · simp only [handleSignalingMessage]
    by_cases hf : p = cfg.userId
    · rw [if_pos hf]
    · rw [if_neg hf]
      unfold handlePeerJoin
      exact handlePeerJoinGo_existing h
  · simp only [handleSignalingMessage]
    by_cases hf : p = cfg.userId
    · rw [if_pos hf]
    · rw [if_neg hf]
      exact handleOffer_existing h

/-- Witness for C1 at concrete inputs: peer B already has a session, and
both a duplicate Join and a duplicate Offer from B are no-ops. -/
theorem C1_at_most_one_session_witness :
    (lookupPeer sWithB.peers "B").isSome = true
    ∧ ((connectedPeers (runActions cfgAnc initState
          [Action.signal envOk
            { type := MsgType.join, data := "", msgFrom := "B", msgTo := none, room_id := "R1" }]).1).Nodup
      ∧ handleSignalingMessage cfgAnc envOk
          { type := MsgType.join, data := "", msgFrom := "B", msgTo := none, room_id := cfgAnc.roomId }
          sWithB = (sWithB, [])
      ∧ handleSignalingMessage cfgAnc envOk
          { type := MsgType.offer, data := "o", msgFrom := "B", msgTo := none, room_id := cfgAnc.roomId }
          sWithB = (sWithB, [])) :=
  ⟨by decide,
   C1_at_most_one_session cfgAnc
     [Action.signal envOk
       { type := MsgType.join, data := "", msgFrom := "B", msgTo := none, room_id := "R1" }]
     envOk "B" "o" sWithB (by decide)⟩

/-- C2: for a known peer session, a candidate arriving without a remote
description is appended to the queue and not applied; applying an answer
as remote description drains the queue in FIFO order, appending every
queued candidate exactly once to the applied trace and emptying the queue;
a candidate arriving with the remote description present is applied
immediately and the queue is untouched; and in every reachable state a
session with a remote description has an empty queue, so the queue is
never read again after the flush. -/
theorem C2_candidate_queue (cfg : Config) (env : Env) (p : PeerId) (c : Candidate)
    (a : Sdp) (s : VoiceCallState) (peer : PeerConnection) (acts : List Action)
    (hl : lookupPeer s.peers p = some peer) (hok : env.remoteDescOk = true) :
    (peer.connection.remoteDescription.isSome = false →
      handleIceCandidate p c s =
        ({ s with peers := setPeer s.peers p ({ peer with iceCandidatesQueue := peer.iceCandidatesQueue ++ [c] }) }, []))
    ∧ handleAnswer env p a s =
        ({ s with peers := setPeer s.peers p (flushedPeer peer a) }, [])
    ∧ (peer.connection.remoteDescription.isSome = true →
      handleIceCandidate p c s =
        ({ s with peers := setPeer s.peers p ({ peer with connection := peer.connection.addIceCandidate c }) }, []))
    ∧ (∀ pr ∈ (runActions cfg initState acts).1.peers,
        pr.2.connection.remoteDescription.isSome = true → pr.2.iceCandidatesQueue = []) := by
  refine ⟨fun hr => handleIceCandidate_queue hl hr, handleAnswer_flush hl hok,
    fun hr => handleIceCandidate_apply hl hr, ?_⟩
  exact (stateInv_runActions acts initState stateInv_initState).2

/-- Witness for C2 at concrete inputs: peer B holds queued candidates c1,
c2; a third candidate is queued behind them; the answer flush applies c1
then c2 and empties the queue; with the remote description set, candidate
c4 is applied directly. -/
theorem C2_candidate_queue_witness :
    (handleIceCandidate "B" "c3" sWithB =
      ({ sWithB with peers := setPeer sWithB.peers "B" ({ peerB with iceCandidatesQueue := peerB.iceCandidatesQueue ++ ["c3"] }) }, []))
    ∧ (handleAnswer envOk "B" "ans" sWithB =
      ({ sWithB with peers := setPeer sWithB.peers "B" (flushedPeer peerB "ans") }, []))
    ∧ (handleIceCandidate "B" "c4" sWithBRemote =
      ({ sWithBRemote with peers := setPeer sWithBRemote.peers "B" ({ peerBRemote with connection := peerBRemote.connection.addIceCandidate "c4" }) }, []))
    ∧ (∀ pr ∈ (runActions cfgAnc initState
        [Action.signal envOk
          { type := MsgType.offer, data := "o", msgFrom := "B", msgTo := none, room_id := "R1" }]).1.peers,
        pr.2.connection.remoteDescription.isSome = true → pr.2.iceCandidatesQueue = []) := by
  have h1 := C2_candidate_queue cfgAnc envOk "B" "c3" "ans" sWithB peerB
    [Action.signal envOk
      { type := MsgType.offer, data := "o", msgFrom := "B", msgTo := none, room_id := "R1" }]
    (by decide) (by decide)
  have h2 := C2_candidate_queue cfgAnc envOk "B" "c4" "x" sWithBRemote peerBRemote []
    (by decide) (by decide)
  exact ⟨h1.1 (by decide), h1.2.1, h2.2.2.1 (by decide), h1.2.2.2⟩

/-- C3 counterexample: an Offer from A addressed to B (msgTo = some B) is
processed by recipient me anyway: a session for A is created and an Answer
is published, although the claim requires any recipient other than B to
ignore the message. -/
theorem C3_counterexample :
    (handleSignalingMessage cfgAud envOk
        { type := MsgType.offer, data := "o", msgFrom := "A", msgTo := some "B", room_id := "R1" }
        sNoPeers).1.peers ≠ sNoPeers.peers
    ∧ (handleSignalingMessage cfgAud envOk
        { type := MsgType.offer, data := "o", msgFrom := "A", msgTo := some "B", room_id := "R1" }
        sNoPeers).2 ≠ [] := by
  decide

/-- C3 amended: a message whose sender is the local identity is ignored,
and the msgTo field is never consulted by the broadcast coordinator: the
result of processing a message is invariant under replacing its msgTo.
Targeted filtering exists only in the separate useWebRTC implementation,
which filters on the recipient column in its subscription. -/
theorem C3_amended_filtering (cfg : Config) (env : Env) (msg : SignalingMessage)
    (s : VoiceCallState) (t1 t2 : Option PeerId) :
    (msg.msgFrom = cfg.userId → handleSignalingMessage cfg env msg s = (s, []))
    ∧ handleSignalingMessage cfg env { msg with msgTo := t1 } s
        = handleSignalingMessage cfg env { msg with msgTo := t2 } s := by
  constructor
  · intro hf
    unfold handleSignalingMessage
    rw [if_pos hf]
  · rfl

/-- Witness for C3 amended at concrete inputs. -/
theorem C3_amended_filtering_witness :
    (handleSignalingMessage cfgAud envOk
        { type := MsgType.join, data := "", msgFrom := "me", msgTo := none, room_id := "R1" }
        sNoPeers = (sNoPeers, []))
    ∧ handleSignalingMessage cfgAud envOk
        { type := MsgType.offer, data := "o", msgFrom := "A", msgTo := some "B", room_id := "R1" }
        sNoPeers
      = handleSignalingMessage cfgAud envOk
        { type := MsgType.offer, data := "o", msgFrom := "A", msgTo := some "C", room_id := "R1" }
        sNoPeers := by
  have h1 := C3_amended_filtering cfgAud envOk
    { type := MsgType.join, data := "", msgFrom := "me", msgTo := none, room_id := "R1" }
    sNoPeers none none
  have h2 := C3_amended_filtering cfgAud envOk
    { type := MsgType.offer, data := "o", msgFrom := "A", msgTo := some "Z", room_id := "R1" }
    sNoPeers (some "B") (some "C")
  exact ⟨h1.1 rfl, h2.2⟩

/-- C4: under the asymmetric policy a participant configured as a Receiver
(not an anchor) never publishes an Offer, neither in a single step from an
arbitrary state nor anywhere in a run from the start state; and every
Answer it publishes is published while processing an inbound Offer. -/
theorem C4_role_policy (cfg : Config) (s : VoiceCallState) (a : Action)
    (acts : List Action) (m m1 : SignalingMessage) (hA : cfg.isAnchor = false)
    (hm : m ∈ (stepAction cfg s a).2) (hrun : m1 ∈ (runActions cfg initState acts).2) :
    m.type ≠ MsgType.offer
    ∧ m1.type ≠ MsgType.offer
    ∧ (m.type = MsgType.answer → a.isInboundOffer = true) :=
  ⟨receiver_no_offer_step hA m hm, receiver_no_offer_run hA acts initState m1 hrun,
   fun ht => answer_out_only_on_offer hm ht⟩

/-- Witness for C4 at concrete inputs: the audience participant answering
an inbound offer publishes exactly an Answer, which is not an Offer. -/
theorem C4_role_policy_witness :
    mkMsg cfgAud MsgType.answer "ans" (some "A") ∈
      (stepAction cfgAud sNoPeers (Action.signal envOk
        { type := MsgType.offer, data := "o", msgFrom := "A", msgTo := none, room_id := "R1" })).2
    ∧ ((mkMsg cfgAud MsgType.answer "ans" (some "A")).type ≠ MsgType.offer
      ∧ (mkMsg cfgAud MsgType.answer "ans" (some "A")).type ≠ MsgType.offer
      ∧ ((mkMsg cfgAud MsgType.answer "ans" (some "A")).type = MsgType.answer →
          (Action.signal envOk
            { type := MsgType.offer, data := "o", msgFrom := "A", msgTo := none, room_id := "R1" }).isInboundOffer = true)) :=
  ⟨by decide,
   C4_role_policy cfgAud sNoPeers
     (Action.signal envOk
       { type := MsgType.offer, data := "o", msgFrom := "A", msgTo := none, room_id := "R1" })
     [Action.signal envOk
       { type := MsgType.offer, data := "o", msgFrom := "A", msgTo := none, room_id := "R1" }]
     (mkMsg cfgAud MsgType.answer "ans" (some "A"))
     (mkMsg cfgAud MsgType.answer "ans" (some "A"))
     rfl (by decide) (by decide)⟩

/-- C5 counterexample: with offer creation failing at every attempt, the
coordinator abandons peer B after its retries, but the failure is not
surfaced to the caller: the hook error state stays empty and nothing is
published, contradicting the claim that the failure is surfaced as a
non-fatal error. -/
theorem C5_counterexample :
    (handlePeerJoin cfgAnc envFail "B" 0 sNoPeers).1.error = ""
    ∧ lookupPeer (handlePeerJoin cfgAnc envFail "B" 0 sNoPeers).1.peers "B" = none
    ∧ (handlePeerJoin cfgAnc envFail "B" 0 sNoPeers).2 = [] := by
  decide

/-- C5 amended: offer-creation failures during handlePeerJoin are retried
up to 2 additional times, the failing session being torn down and a fresh
one created for each retry; a success at any of the three attempts stores
the session with the offer as local description and publishes the Offer;
after three failures the peer is abandoned, leaving the state exactly as
before the join (no session for the peer, other peers and the error state
untouched) — the failure is only logged to the console, not surfaced
through the hook error state. -/
theorem C5_amended_offer_retry (cfg : Config) (env : Env) (p : PeerId) (sdp : Sdp)
    (s : VoiceCallState) (hA : (cfg.isAnchor && s.localStream.isSome) = true)
    (hfresh : lookupPeer s.peers p = none) :
    (env.offerResult 0 = none → env.offerResult 1 = none → env.offerResult 2 = none →
      handlePeerJoin cfg env p 0 s = (s, []))
    ∧ (env.offerResult 0 = some sdp →
      handlePeerJoin cfg env p 0 s =
        ({ s with peers := setPeer s.peers p (offeredPeer s p sdp) },
         [mkMsg cfg MsgType.offer sdp (some p)]))
    ∧ (env.offerResult 0 = none → env.offerResult 1 = none → env.offerResult 2 = some sdp →
      handlePeerJoin cfg env p 0 s =
        ({ s with peers := setPeer s.peers p (offeredPeer s p sdp) },
         [mkMsg cfg MsgType.offer sdp (some p)])) := by
  refine ⟨?_, ?_, ?_⟩
  · intro h0 h1 h2
    have e0 := @handlePeerJoinGo_fail_succ cfg env p 0 1 s hfresh hA h0
    have e1 := @handlePeerJoinGo_fail_succ cfg env p 1 0 s hfresh hA h1
    have e2 := @handlePeerJoinGo_fail_zero cfg env p 2 s hfresh hA h2
    exact e0.trans (e1.trans e2)
  · intro h0
    exact handlePeerJoinGo_success hfresh hA h0
  · intro h0 h1 h2
    have e0 := @handlePeerJoinGo_fail_succ cfg env p 0 1 s hfresh hA h0
    have e1 := @handlePeerJoinGo_fail_succ cfg env p 1 0 s hfresh hA h1
    have e2 := @handlePeerJoinGo_success cfg env p 2 0 sdp s hfresh hA h2
    exact e0.trans (e1.trans e2)

/-- Witness for C5 amended at concrete inputs: all attempts failing leaves
the state untouched; an immediate success stores the session and publishes
the offer. -/
theorem C5_amended_offer_retry_witness :
    handlePeerJoin cfgAnc envFail "B" 0 sNoPeers = (sNoPeers, [])
    ∧ handlePeerJoin cfgAnc envOk "B" 0 sNoPeers =
        ({ sNoPeers with peers := setPeer sNoPeers.peers "B" (offeredPeer sNoPeers "B" "sdp") },
         [mkMsg cfgAnc MsgType.offer "sdp" (some "B")]) := by
  have h1 := C5_amended_offer_retry cfgAnc envFail "B" "x" sNoPeers (by decide) (by decide)
  have h2 := C5_amended_offer_retry cfgAnc envOk "B" "sdp" sNoPeers (by decide) (by decide)
  exact ⟨h1.1 rfl rfl rfl, h2.2.1 rfl⟩

/-- C6: leaveCall is idempotent: outside a call it returns the state
unchanged with no teardown effects; during a call it leaves zero sessions,
closes every peer connection, stops every local track and clears the
stream reference before returning; and a second leaveCall after any
leaveCall is always a no-op. -/
theorem C6_leaveCall_idempotent (cfg : Config) (s : VoiceCallState) :
    (s.isInCall = false →
      leaveCall cfg s = (s, { sentMessages := [], closedConnections := [], releasedStream := none }))
    ∧ (s.isInCall = true →
      (leaveCall cfg s).1.peers = []
      ∧ (leaveCall cfg s).1.localStream = none
      ∧ (leaveCall cfg s).1.isInCall = false
      ∧ (leaveCall cfg s).2.closedConnections.length = s.peers.length
      ∧ (∀ conn ∈ (leaveCall cfg s).2.closedConnections, conn.closed = true)
      ∧ (leaveCall cfg s).2.releasedStream = s.localStream.map MediaStream.stopTracks
      ∧ (∀ ms ∈ (leaveCall cfg s).2.releasedStream, ∀ t ∈ ms.tracks, t.stopped = true))
    ∧ leaveCall cfg (leaveCall cfg s).1 =
        ((leaveCall cfg s).1, { sentMessages := [], closedConnections := [], releasedStream := none }) := by
  cases hc : s.isInCall with
  | false =>
    have hno : leaveCall cfg s = (s, { sentMessages := [], closedConnections := [], releasedStream := none }) := by
      simp [leaveCall, hc]
    refine ⟨fun _ => hno, fun habs => ?_, ?_⟩
    · simp at habs
    · rw [hno]
      exact hno
  | true =>
    refine ⟨fun habs => ?_, fun _ => ?_, ?_⟩
    · simp at habs
    · refine ⟨by simp [leaveCall, hc], by simp [leaveCall, hc], by simp [leaveCall, hc],
        by simp [leaveCall, hc], ?_, by simp [leaveCall, hc], ?_⟩
      · intro conn hconn
        simp only [leaveCall, hc, Bool.not_true, Bool.false_eq_true, if_false] at hconn
        simp only [List.mem_map] at hconn
        obtain ⟨pr, _, rfl⟩ := hconn
        rfl
      · intro ms hms t ht
        simp only [leaveCall, hc, Bool.not_true, Bool.false_eq_true, if_false] at hms
        cases hs : s.localStream with
        | none =>
          rw [hs] at hms
          simp at hms
        | some ms0 =>
          rw [hs] at hms
          have hms1 : MediaStream.stopTracks ms0 = ms := by simpa using hms
          subst hms1
          simp only [MediaStream.stopTracks, List.mem_map] at ht
          obtain ⟨t0, _, rfl⟩ := ht
          rfl
    · have h1 : (leaveCall cfg s).1 =
          { s with peers := [], localStream := none, isInCall := false, isMuted := false } := by
        simp [leaveCall, hc]
      rw [h1]
      simp [leaveCall]

/-- Witness for C6 at concrete inputs: a no-op outside a call, a full
teardown of the in-call state holding the session for B, and a second
leaveCall being a no-op. -/
theorem C6_leaveCall_idempotent_witness :
    leaveCall cfgAnc initState =
      (initState, { sentMessages := [], closedConnections := [], releasedStream := none })
    ∧ ((leaveCall cfgAnc sWithB).1.peers = []
      ∧ (leaveCall cfgAnc sWithB).1.localStream = none
      ∧ (leaveCall cfgAnc sWithB).1.isInCall = false
      ∧ (leaveCall cfgAnc sWithB).2.closedConnections.length = sWithB.peers.length
      ∧ (∀ conn ∈ (leaveCall cfgAnc sWithB).2.closedConnections, conn.closed = true)
      ∧ (leaveCall cfgAnc sWithB).2.releasedStream = sWithB.localStream.map MediaStream.stopTracks
      ∧ (∀ ms ∈ (leaveCall cfgAnc sWithB).2.releasedStream, ∀ t ∈ ms.tracks, t.stopped = true))
    ∧ leaveCall cfgAnc (leaveCall cfgAnc sWithB).1 =
        ((leaveCall cfgAnc sWithB).1,
         { sentMessages := [], closedConnections := [], releasedStream := none }) := by
  have h1 := C6_leaveCall_idempotent cfgAnc initState
  have h2 := C6_leaveCall_idempotent cfgAnc sWithB
  exact ⟨h1.1 rfl, h2.2.1 rfl, h2.2.2⟩

/-- C7: when capture acquisition fails for an anchor joining a call, the
error state is set synchronously to the microphone-access failure, the
participant does not enter the call, no session is created and nothing is
published. -/
theorem C7_media_denied (cfg : Config) (s : VoiceCallState) (hA : cfg.isAnchor = true)
    (hni : s.isInCall = false) (hnc : s.isConnecting = false) :
    (joinCall cfg none s).1.error =
        "Failed to access microphone. Please check your permissions."
    ∧ (joinCall cfg none s).1.isInCall = false
    ∧ (joinCall cfg none s).1.peers = s.peers
    ∧ (joinCall cfg none s).2 = [] := by
  have hstep : joinCall cfg none s =
      ({ s with isConnecting := false,
                error := "Failed to access microphone. Please check your permissions." }, []) := by
    simp [joinCall, hni, hnc, hA]
  rw [hstep]
  exact ⟨rfl, hni, rfl, rfl⟩

/-- Witness for C7 at concrete inputs. -/
theorem C7_media_denied_witness :
    (joinCall cfgAnc none initState).1.error =
        "Failed to access microphone. Please check your permissions."
    ∧ (joinCall cfgAnc none initState).1.isInCall = false
    ∧ (joinCall cfgAnc none initState).1.peers = initState.peers
    ∧ (joinCall cfgAnc none initState).2 = [] :=
  C7_media_denied cfgAnc initState rfl rfl rfl

/-- C8 counterexample: the symmetric configuration claimed by the spec
makes a Receiver originate offers (specPolicyOriginatesOffer true false is
true), but the shipped coordinator configured as a Receiver, even holding
a local stream, creates the session for a joining peer without ever
publishing an Offer: there is no policy flag, the offer gate is the
hard-coded anchor role check. -/
theorem C8_counterexample :
    specPolicyOriginatesOffer true false = true
    ∧ (stepAction cfgAud sNoPeers (Action.signal envOk
        { type := MsgType.join, data := "", msgFrom := "A", msgTo := none, room_id := "R1" })).2 = []
    ∧ (stepAction cfgAud sNoPeers (Action.signal envOk
        { type := MsgType.join, data := "", msgFrom := "A", msgTo := none, room_id := "R1" })).1.peers
        ≠ sNoPeers.peers := by
  decide

/-- C8 amended: the two role policies are two separate implementations
rather than one flag on a single coordinator: in the shipped useVoiceCall
coordinator a participant configured as a Receiver never publishes an
Offer from any state under any input, while the symmetric mesh of equals
exists only as the separate useWebRTC implementation, whose startCall
fan-out publishes an Offer to every other listed participant with no role
check. -/
theorem C8_amended_two_implementations (cfg : Config) (s : VoiceCallState) (a : Action)
    (roomId userId offerSdp : String) (users : List String) (m : SignalingMessage)
    (hA : cfg.isAnchor = false) (hm : m ∈ (stepAction cfg s a).2) :
    m.type ≠ MsgType.offer
    ∧ (startCallOffers roomId userId offerSdp users).map SignalingMessage.msgTo
        = (users.filter fun u => u ≠ userId).map some
    ∧ (∀ m1 ∈ startCallOffers roomId userId offerSdp users, m1.type = MsgType.offer) := by
  refine ⟨receiver_no_offer_step hA m hm, ?_, ?_⟩
  · simp [startCallOffers]
  · intro m1 hm1
    simp only [startCallOffers, List.mem_map] at hm1
    obtain ⟨x, _, rfl⟩ := hm1
    rfl

/-- Witness for C8 amended at concrete inputs. -/
theorem C8_amended_two_implementations_witness :
    mkMsg cfgAud MsgType.answer "ans" (some "Q") ∈
      (stepAction cfgAud sNoPeers (Action.signal envOk
        { type := MsgType.offer, data := "o", msgFrom := "Q", msgTo := none, room_id := "R1" })).2
    ∧ ((mkMsg cfgAud MsgType.answer "ans" (some "Q")).type ≠ MsgType.offer
      ∧ (startCallOffers "R1" "W" "sdp" ["W", "B", "C"]).map SignalingMessage.msgTo
          = (["W", "B", "C"].filter fun u => u ≠ "W").map some
      ∧ (∀ m1 ∈ startCallOffers "R1" "W" "sdp" ["W", "B", "C"], m1.type = MsgType.offer)) :=
  ⟨by decide,
   C8_amended_two_implementations cfgAud sNoPeers
     (Action.signal envOk
       { type := MsgType.offer, data := "o", msgFrom := "Q", msgTo := none, room_id := "R1" })
     "R1" "W" "sdp" ["W", "B", "C"]
     (mkMsg cfgAud MsgType.answer "ans" (some "Q"))
     rfl (by decide)⟩

/-- C9: toggleMute changes neither the set of connected peer identities
nor the peer sessions, and its event-loop step publishes no signaling
message: mute is purely a local track toggle, triggering no renegotiation,
session creation or session removal. -/
theorem C9_toggleMute_frame (cfg : Config) (s : VoiceCallState) :
    connectedPeers (toggleMute cfg s) = connectedPeers s
    ∧ (toggleMute cfg s).peers = s.peers
    ∧ (stepAction cfg s Action.muteAct).2 = [] := by
  have hp : (toggleMute cfg s).peers = s.peers := by
    unfold toggleMute
    split
    · split
      · rfl
      · rfl
    · rfl
  exact ⟨by simp [connectedPeers, hp], hp, rfl⟩

/-- C10: the public connectedPeers value is exactly the list of keys of
the peers Map; after a first Join contact the new peer appears in it with
its session stored and its transport still in the fresh "new" state (not
yet connected); after a first Offer contact it likewise appears; and it
disappears when the session is removed. -/
theorem C10_connectedPeers_keys (cfg : Config) (env : Env) (p : PeerId)
    (sdp o ans : Sdp) (s : VoiceCallState) (hfresh : lookupPeer s.peers p = none)
    (hof : env.offerResult 0 = some sdp) (hok : env.remoteDescOk = true)
    (hans : env.answerResult = some ans) :
    connectedPeers s = s.peers.map Prod.fst
    ∧ p ∈ connectedPeers (handlePeerJoin cfg env p 0 s).1
    ∧ (∃ pc, lookupPeer (handlePeerJoin cfg env p 0 s).1.peers p = some pc
        ∧ pc.connection.connectionState = "new")
    ∧ p ∈ connectedPeers (handleOffer cfg env p o s).1
    ∧ p ∉ connectedPeers (handlePeerLeave p (handlePeerJoin cfg env p 0 s).1) := by
  have hnm : p ∉ s.peers.map Prod.fst := lookupPeer_eq_none_iff.mp hfresh
  have hjoin : ∃ pc, (handlePeerJoin cfg env p 0 s).1.peers = setPeer s.peers p pc
      ∧ pc.connection.connectionState = "new" := by
    cases ha : (cfg.isAnchor && s.localStream.isSome) with
    | true =>
      refine ⟨offeredPeer s p sdp, ?_, rfl⟩
      unfold handlePeerJoin
      rw [handlePeerJoinGo_success hfresh ha hof]
    | false =>
      refine ⟨newPeerFor s p, ?_, rfl⟩
      unfold handlePeerJoin
      rw [handlePeerJoinGo_no_offer hfresh ha]
  obtain ⟨pc, hpc, hnew⟩ := hjoin
  have hkeys : (handlePeerJoin cfg env p 0 s).1.peers.map Prod.fst
      = s.peers.map Prod.fst ++ [p] := by
    rw [hpc]
    exact map_fst_setPeer_of_not_mem hnm
  refine ⟨rfl, ?_, ?_, ?_, ?_⟩
  · show p ∈ (handlePeerJoin cfg env p 0 s).1.peers.map Prod.fst
    rw [hkeys]
    simp
  · refine ⟨pc, ?_, hnew⟩
    rw [hpc]
    exact lookupPeer_setPeer_self
  · show p ∈ (handleOffer cfg env p o s).1.peers.map Prod.fst
    rw [handleOffer_success hfresh hok hans]
    show p ∈ (setPeer s.peers p (answeredPeer s p o ans)).map Prod.fst
    rw [map_fst_setPeer_of_not_mem hnm]
    simp
  · show p ∉ (handlePeerLeave p (handlePeerJoin cfg env p 0 s).1).peers.map Prod.fst
    unfold handlePeerLeave
    rw [hpc, erasePeer_setPeer_of_not_mem hnm]
    exact hnm

/-- Witness for C10 at concrete inputs: after the join broadcast of B is
processed by the anchor, B is listed in connectedPeers while the session
transport is still new, and it is gone after the session is removed. -/
theorem C10_connectedPeers_keys_witness :
    connectedPeers sNoPeers = sNoPeers.peers.map Prod.fst
    ∧ "B" ∈ connectedPeers (handlePeerJoin cfgAnc envOk "B" 0 sNoPeers).1
    ∧ (∃ pc, lookupPeer (handlePeerJoin cfgAnc envOk "B" 0 sNoPeers).1.peers "B" = some pc
        ∧ pc.connection.connectionState = "new")
    ∧ "B" ∈ connectedPeers (handleOffer cfgAnc envOk "B" "o" sNoPeers).1
    ∧ "B" ∉ connectedPeers (handlePeerLeave "B" (handlePeerJoin cfgAnc envOk "B" 0 sNoPeers).1) :=
  C10_connectedPeers_keys cfgAnc envOk "B" "sdp" "o" "ans" sNoPeers
    (by decide) rfl rfl rfl

end VoiceCall
